import Mathlib

/-!
Shallow embedding of the kava committee governance keeper
(x/committee/keeper/proposal.go) and of the cdp module genesis
initialisation (x/cdp/genesis.go).

Machine integers (uint64, int64) are modelled as Nat/Int: none of the
verified operations perform arithmetic that can overflow a 64-bit
integer (the proposal ID counter advances by one per stored proposal and
tallies are bounded by the length of the vote list).  sdk.Dec fixed
point decimals are modelled as rationals: the operations the code uses
on them (NewDec, MulInt64, GTE) are exact on Dec, so the embedding into
Rat preserves their results.  Event emission is fire-and-forget
observability and is not modelled, except that the expiry sweep records
how many proposals its iteration callback visited.  Timestamps and
durations are Nat.  Store keyspaces are modelled as lists of records;
the keyed-store invariant (at most one record per key) is stated as a
hypothesis where a theorem needs it.
-/

namespace Kava

/-- Error values produced by the committee keeper (sdk.Error results).
The basicValidation and handlerFailure variants stand for the
externally-produced errors a PubProposal.ValidateBasic or a registered
handler may return. -/
inductive Err where
  | unknownCommittee (id : Nat)
  | unknownProposal (id : Nat)
  | unauthorized (msg : String)
  | proposalExpired (blockTime deadline : Nat)
  | invalidPubProposal (msg : String)
  | noProposalHandlerExists (route : Nat)
  | basicValidation (code : Nat)
  | handlerFailure (code : Nat)
deriving DecidableEq

/-- Opaque proposal content (types.PubProposal): a route key, the verdict
of its ValidateBasic method, and an uninterpreted payload that concrete
handlers may inspect.  A nil Go interface value is modelled as none at
the use sites (Option PubProposal). -/
structure PubProposal where
  route : Nat
  basic : Option Err
  payload : Nat
deriving DecidableEq

def PubProposal.ValidateBasic (p : PubProposal) : Option Err :=
  p.basic

def PubProposal.ProposalRoute (p : PubProposal) : Nat :=
  p.route

/-- Modelled from the spec: the Permission capability set is an open
family of predicates over proposal content; it is closed here with an
unconditional capability and a per-route capability, enough to realise
any authorize or deny verdict the claims need. -/
inductive Permission where
  | allowAll
  | allowRoute (r : Nat)
deriving DecidableEq

def Permission.allows : Permission → Option PubProposal → Bool
  | .allowAll, _ => true
  | .allowRoute r, some p => p.route == r
  | .allowRoute _, none => false

/-- A committee (types.Committee). -/
structure Committee where
  ID : Nat
  Members : List Nat
  Permissions : List Permission
  VoteThreshold : Rat
  ProposalDuration : Nat
deriving DecidableEq

def Committee.HasMember (c : Committee) (addr : Nat) : Bool :=
  c.Members.contains addr

/-- Returns true iff at least one permission of the committee authorizes
the pub proposal. -/
def Committee.HasPermissionsFor (c : Committee) (pp : Option PubProposal) : Bool :=
  c.Permissions.any (fun q => q.allows pp)

/-- A stored proposal (types.Proposal): the embedded pub proposal is kept
as an Option to represent a nil content interface. -/
structure Proposal where
  ID : Nat
  CommitteeID : Nat
  pubProposal : Option PubProposal
  Deadline : Nat
deriving DecidableEq

/-- Modelled from the spec: a proposal has expired by time t exactly when
its deadline is at or before t. -/
def Proposal.HasExpiredBy (p : Proposal) (t : Nat) : Bool :=
  decide (p.Deadline ≤ t)

/-- A vote record (types.Vote): presence of the (ProposalID, Voter) keyed
record is the whole content, there is no choice field. -/
structure Vote where
  ProposalID : Nat
  Voter : Nat
deriving DecidableEq

/-- The live keeper store: the committee, proposal and vote keyspaces plus
the next-proposal-ID counter. -/
structure StoreState where
  committees : List Committee
  proposals : List Proposal
  votes : List Vote
  nextProposalID : Nat
deriving DecidableEq

def getCommittee (s : StoreState) (id : Nat) : Option Committee :=
  s.committees.find? (fun c => c.ID == id)

def getProposal (s : StoreState) (id : Nat) : Option Proposal :=
  s.proposals.find? (fun p => p.ID == id)

/-- The (ProposalID, Voter) key test for the vote keyspace. -/
def keyMatch (pid voter : Nat) (w : Vote) : Bool :=
  w.ProposalID == pid && w.Voter == voter

/-- Modelled from the spec: SetVote upserts by the (ProposalID, Voter)
key, an unconditional overwrite with no error when no prior vote
existed. -/
def setVote (s : StoreState) (v : Vote) : StoreState :=
  if s.votes.any (keyMatch v.ProposalID v.Voter) then
    { s with votes := s.votes.map (fun w => if keyMatch v.ProposalID v.Voter w then v else w) }
  else
    { s with votes := s.votes ++ [v] }

def deleteProposal (s : StoreState) (pid : Nat) : StoreState :=
  { s with proposals := s.proposals.filter (fun p => !(p.ID == pid)) }

def deleteVote (s : StoreState) (pid voter : Nat) : StoreState :=
  { s with votes := s.votes.filter (fun w => !(keyMatch pid voter w)) }

/-- IterateVotes specialised to the collecting callback used by the
keeper: it appends every visited vote of the proposal and never stops
early. -/
def votesFor (s : StoreState) (pid : Nat) : List Vote :=
  s.votes.filter (fun v => v.ProposalID == pid)

/-- Modelled from the spec: StoreNewProposal allocates the next sequential
ID from the persisted monotonic counter, stores the proposal under that
ID and persists the advanced counter. -/
def StoreNewProposal (s : StoreState) (pp : Option PubProposal) (cid deadline : Nat) : Nat × StoreState :=
  (s.nextProposalID,
   { s with
       proposals := s.proposals ++ [⟨s.nextProposalID, cid, pp, deadline⟩],
       nextProposalID := s.nextProposalID + 1 })

/-- Outcome of one handler invocation: normal success, a returned error,
or a runtime fault (panic) raised inside the handler. -/
inductive HStatus where
  | ok
  | err (e : Err)
  | panicked (msg : String)

/-- A registered proposal handler: it runs against the store it is handed
(its context) and reports its outcome together with that store as it
left it. -/
def Handler : Type :=
  StoreState → PubProposal → HStatus × StoreState

/-- The committee keeper: its handler router.  HasRoute is isSome of the
lookup and GetRoute panics when the lookup is none. -/
structure Keeper where
  router : Nat → Option Handler

/-- TallyVotes counts all the votes on a proposal by iterating them and
returning the length of the collected list. -/
def TallyVotes (s : StoreState) (pid : Nat) : Nat :=
  (votesFor s pid).length

/-- ValidatePubProposal checks if a pubproposal is valid: non-nil content,
ValidateBasic, a registered route, then a dry run of the handler against
cacheCtx, a discardable copy of live state.  The deferred recover turns
a handler panic into an InvalidPubProposal error.  The second component
is the live store as the caller sees it after the call: every branch
returns the untouched input store because the cache write-back function
is discarded and never invoked. -/
def ValidatePubProposal (k : Keeper) (s : StoreState) (pp : Option PubProposal) : Option Err × StoreState :=
  match pp with
  | none => (some (.invalidPubProposal (r"pub proposal cannot be nil")), s)
  | some p =>
    match p.ValidateBasic with
    | some e => (some e, s)
    | none =>
      match k.router p.ProposalRoute with
      | none => (some (.noProposalHandlerExists p.ProposalRoute), s)
      | some handler =>
        let cacheCtx := s
        match handler cacheCtx p with
        | (.ok, _cache) => (none, s)
        | (.err e, _cache) => (some e, s)
        | (.panicked m, _cache) => (some (.invalidPubProposal (r"proposal handler panicked: " ++ m)), s)

/-- SubmitProposal adds a proposal to a committee so that it can be voted
on: only committee members may submit, the committee must have
permission for the proposal, and the content must pass
ValidatePubProposal; then the proposal is stored with deadline
blockTime + ProposalDuration. -/
def SubmitProposal (k : Keeper) (s : StoreState) (proposer cid : Nat) (pp : Option PubProposal) (blockTime : Nat) : Except Err Nat × StoreState :=
  match getCommittee s cid with
  | none => (.error (.unknownCommittee cid), s)
  | some com =>
    if !(com.HasMember proposer) then
      (.error (.unauthorized (r"proposer not member of committee")), s)
    else if !(com.HasPermissionsFor pp) then
      (.error (.unauthorized (r"committee does not have permissions to enact proposal")), s)
    else
      match ValidatePubProposal k s pp with
      | (some e, s1) => (.error e, s1)
      | (none, s1) =>
        let r := StoreNewProposal s1 pp cid (blockTime + com.ProposalDuration)
        (.ok r.1, r.2)

/-- AddVote submits a vote on a proposal: the proposal must exist and be
unexpired, the committee must exist, and the voter must be a member;
the vote is then stored, overwriting any prior vote. -/
def AddVote (s : StoreState) (pid voter blockTime : Nat) : Option Err × StoreState :=
  match getProposal s pid with
  | none => (some (.unknownProposal pid), s)
  | some pr =>
    if pr.HasExpiredBy blockTime then
      (some (.proposalExpired blockTime pr.Deadline), s)
    else
      match getCommittee s pr.CommitteeID with
      | none => (some (.unknownCommittee pr.CommitteeID), s)
      | some com =>
        if !(com.HasMember voter) then
          (some (.unauthorized (r"voter must be a member of committee")), s)
        else
          (none, setVote s ⟨pid, voter⟩)

/-- GetProposalResult calculates if a proposal currently has enough votes
to pass: NewDec(numVotes).GTE(VoteThreshold.MulInt64(len(Members))),
exact fixed point arithmetic embedded into the rationals. -/
def GetProposalResult (s : StoreState) (pid : Nat) : Except Err Bool :=
  match getProposal s pid with
  | none => .error (.unknownProposal pid)
  | some pr =>
    match getCommittee s pr.CommitteeID with
    | none => .error (.unknownCommittee pr.CommitteeID)
    | some com =>
      .ok (decide ((TallyVotes s pid : Rat) ≥ com.VoteThreshold * (com.Members.length : Rat)))

/-- Outcome of EnactProposal as observed by the caller: an ordinary result
(ok or an error value) or a propagated panic, which is process-fatal. -/
inductive EnactResult where
  | ok
  | err (e : Err)
  | panicked (msg : String)
deriving DecidableEq

def EnactResult.isFatal : EnactResult → Bool
  | .panicked _ => true
  | _ => false

/-- EnactProposal makes the changes proposed in a proposal: it re-runs
ValidatePubProposal on the stored content and then invokes the routed
handler on live state.  A handler error at this point raises a panic
(the Go code panics with the handler error text, elided here); a missing
route makes GetRoute panic, and a nil stored content would make the
route accessor panic, both represented as panicked results. -/
def EnactProposal (k : Keeper) (s : StoreState) (pid : Nat) : EnactResult × StoreState :=
  match getProposal s pid with
  | none => (.err (.unknownProposal pid), s)
  | some pr =>
    match ValidatePubProposal k s pr.pubProposal with
    | (some e, s1) => (.err e, s1)
    | (none, s1) =>
      match pr.pubProposal with
      | none => (.panicked (r"nil pub proposal"), s1)
      | some p =>
        match k.router p.ProposalRoute with
        | none => (.panicked (r"route does not exist"), s1)
        | some handler =>
          match handler s1 p with
          | (.ok, s2) => (.ok, s2)
          | (.err _e, s2) => (.panicked (r"unexpected handler error"), s2)
          | (.panicked m, s2) => (.panicked m, s2)

/-- One primitive store deletion, recorded so the order in which
DeleteProposalAndVotes issues its deletes is observable. -/
inductive StoreOp where
  | delProposal (pid : Nat)
  | delVote (pid voter : Nat)
deriving DecidableEq

/-- One step of the vote-deletion loop of DeleteProposalAndVotes. -/
def delVoteStep (acc : StoreState × List StoreOp) (v : Vote) : StoreState × List StoreOp :=
  (deleteVote acc.1 v.ProposalID v.Voter, acc.2 ++ [StoreOp.delVote v.ProposalID v.Voter])

/-- DeleteProposalAndVotes removes a proposal and its associated votes: it
collects the proposal's votes, deletes the proposal, then deletes each
collected vote; the second component lists the issued store deletions in
order. -/
def DeleteProposalAndVotes (s : StoreState) (pid : Nat) : StoreState × List StoreOp :=
  (votesFor s pid).foldl delVoteStep (deleteProposal s pid, [StoreOp.delProposal pid])

/-- Result of one expiry sweep: the store afterwards and the number of
proposals the iteration callback visited. -/
structure SweepAcc where
  state : StoreState
  visited : Nat
deriving DecidableEq

/-- The visitor of the expiry sweep: each visited proposal bumps the
visit count, and an expired one is removed together with its votes. -/
def sweepStep (blockTime : Nat) (acc : SweepAcc) (pr : Proposal) : SweepAcc :=
  if pr.HasExpiredBy blockTime then
    { state := (DeleteProposalAndVotes acc.state pr.ID).1, visited := acc.visited + 1 }
  else
    { acc with visited := acc.visited + 1 }

/-- CloseExpiredProposals iterates the snapshot of the proposal keyspace
(modelled from the spec: IterateProposals has iteration snapshot
semantics) and removes every proposal, with its votes, that has expired
by the current block time. -/
def CloseExpiredProposals (s : StoreState) (blockTime : Nat) : SweepAcc :=
  s.proposals.foldl (sweepStep blockTime) ⟨s, 0⟩

/-! Helper lemmas about ValidatePubProposal. -/

/-- Every branch of ValidatePubProposal returns the input live store. -/
theorem validate_snd (k : Keeper) (s : StoreState) (pp : Option PubProposal) :
    (ValidatePubProposal k s pp).2 = s := by
  cases pp with
  | none => rfl
  | some p =>
    cases hb : p.ValidateBasic with
    | some e => simp [ValidatePubProposal, hb]
    | none =>
      cases hr : k.router p.ProposalRoute with
      | none => simp [ValidatePubProposal, hb, hr]
      | some hd =>
        cases hh : hd s p with
        | mk st cache => cases st <;> simp [ValidatePubProposal, hb, hr, hh]

/-- When ValidatePubProposal reports no error, the content is non-nil,
basic validation passed, a handler is routed, and the dry run of that
handler on the live store succeeded. -/
theorem validate_ok_inversion (k : Keeper) (s : StoreState) (pp : Option PubProposal)
    (hv : (ValidatePubProposal k s pp).1 = none) :
    ∃ p hd, pp = some p ∧ p.ValidateBasic = none ∧ k.router p.ProposalRoute = some hd ∧
      (hd s p).1 = HStatus.ok := by
  cases pp with
  | none => simp [ValidatePubProposal] at hv
  | some p =>
    cases hb : p.ValidateBasic with
    | some e => simp [ValidatePubProposal, hb] at hv
    | none =>
      cases hr : k.router p.ProposalRoute with
      | none => simp [ValidatePubProposal, hb, hr] at hv
      | some hd =>
        cases hh : hd s p with
        | mk st cache =>
          cases st with
          | ok => exact ⟨p, hd, rfl, hb, hr, by rw [hh]⟩
          | err e => simp [ValidatePubProposal, hb, hr, hh] at hv
          | panicked m => simp [ValidatePubProposal, hb, hr, hh] at hv

/-- C3: dry-run isolation: for every keeper (hence every registered
handler, including one that writes to state, returns an error, or
panics) and every store and content, the live store ValidatePubProposal
hands back is exactly the input store: the dry run executes only against
the discarded cache copy, so no mutation made during the dry run is
observable in live state for any outcome. -/
theorem validatePubProposal_leaves_live_state_unchanged
    (k : Keeper) (s : StoreState) (pp : Option PubProposal) :
    (ValidatePubProposal k s pp).2 = s :=
  validate_snd k s pp

/-- C2: a runtime fault (panic) raised by the routed handler during the
sandboxed dry run inside ValidatePubProposal is caught at that boundary
and converted into an ordinary InvalidPubProposal validation error
returned to the caller with live state unchanged; no such fault
propagates past ValidatePubProposal. -/
theorem validatePubProposal_converts_handler_panic
    (k : Keeper) (s : StoreState) (p : PubProposal) (hd : Handler) (m : String) (cache : StoreState)
    (hb : p.ValidateBasic = none)
    (hr : k.router p.ProposalRoute = some hd)
    (hh : hd s p = (HStatus.panicked m, cache)) :
    ValidatePubProposal k s (some p) =
      (some (Err.invalidPubProposal (r"proposal handler panicked: " ++ m)), s) := by
  simp [ValidatePubProposal, hb, hr, hh]

/-- A handler that always raises a runtime fault, used as a concrete
third-party misbehaving handler. -/
def panicHandler : Handler :=
  fun st _p => (HStatus.panicked (r"boom"), st)

def kPanic : Keeper :=
  ⟨fun r => if r == 0 then some panicHandler else none⟩

def ppPanic : PubProposal := ⟨0, none, 0⟩

def sEmpty : StoreState := ⟨[], [], [], 1⟩

theorem validatePubProposal_converts_handler_panic_witness :
    ValidatePubProposal kPanic sEmpty (some ppPanic) =
      (some (Err.invalidPubProposal (r"proposal handler panicked: boom")), sEmpty) :=
  validatePubProposal_converts_handler_panic kPanic sEmpty ppPanic panicHandler (r"boom") sEmpty rfl rfl rfl

/-- C1: EnactProposal never ends in a process-fatal failure: for every
keeper, store and proposal id its result is an ordinary ok or error
value (isFatal is false), and when the routed handler would return an
error on current state, that error is surfaced to the caller as an
ordinary error result with live state unchanged. -/
theorem enactProposal_never_fatal (k : Keeper) (s : StoreState) (pid : Nat) :
    (EnactProposal k s pid).1.isFatal = false ∧
    (∀ pr p hd e cache,
      getProposal s pid = some pr →
      pr.pubProposal = some p →
      p.ValidateBasic = none →
      k.router p.ProposalRoute = some hd →
      hd s p = (HStatus.err e, cache) →
      EnactProposal k s pid = (EnactResult.err e, s)) := by
  constructor
  · cases hgp : getProposal s pid with
    | none => simp [EnactProposal, hgp, EnactResult.isFatal]
    | some pr =>
      cases hv : ValidatePubProposal k s pr.pubProposal with
      | mk verr s1 =>
        have hs1 : s1 = s := by
          have hsnd := validate_snd k s pr.pubProposal
          rw [hv] at hsnd
          exact hsnd
        rw [hs1] at hv
        cases verr with
        | some e => simp [EnactProposal, hgp, hv, EnactResult.isFatal]
        | none =>
          obtain ⟨p, hd, hpp, hb, hr, hok⟩ :=
            validate_ok_inversion k s pr.pubProposal (by rw [hv])
          cases hhd : hd s p with
          | mk st s2 =>
            rw [hhd] at hok
            simp only [] at hok
            subst hok
            rw [hpp] at hv
            simp [EnactProposal, hgp, hv, hpp, hr, hhd, EnactResult.isFatal]
  · intro pr p hd e cache hgp hpp hb hr hh
    have hv : ValidatePubProposal k s pr.pubProposal = (some e, s) := by
      rw [hpp]
      simp [ValidatePubProposal, hb, hr, hh]
    simp [EnactProposal, hgp, hv]

/-- A handler that always returns an ordinary error. -/
def errHandler : Handler :=
  fun st _p => (HStatus.err (Err.handlerFailure 7), st)

def kErr : Keeper :=
  ⟨fun r => if r == 1 then some errHandler else none⟩

def ppErr : PubProposal := ⟨1, none, 0⟩

def sErr : StoreState := ⟨[], [⟨4, 2, some ppErr, 50⟩], [], 5⟩

theorem enactProposal_never_fatal_witness :
    EnactProposal kErr sErr 4 = (EnactResult.err (Err.handlerFailure 7), sErr) ∧
    (EnactProposal kErr sErr 4).1.isFatal = false :=
  ⟨(enactProposal_never_fatal kErr sErr 4).2 ⟨4, 2, some ppErr, 50⟩ ppErr errHandler
      (Err.handlerFailure 7) sErr rfl rfl rfl rfl rfl,
   (enactProposal_never_fatal kErr sErr 4).1⟩

/-- C10: committee existence is a precondition of AddVote, checked after
proposal existence and expiry and before membership: for an existing,
unexpired proposal whose committee is gone, AddVote returns an
UnknownCommittee error (for any voter) and records no vote; a missing
or expired proposal yields its own error first. -/
theorem addVote_unknown_committee (s : StoreState) (pid voter blockTime : Nat) (pr : Proposal) :
    (getProposal s pid = some pr → pr.HasExpiredBy blockTime = false →
      getCommittee s pr.CommitteeID = none →
      AddVote s pid voter blockTime = (some (Err.unknownCommittee pr.CommitteeID), s)) ∧
    (getProposal s pid = some pr → pr.HasExpiredBy blockTime = true →
      AddVote s pid voter blockTime = (some (Err.proposalExpired blockTime pr.Deadline), s)) ∧
    (getProposal s pid = none →
      AddVote s pid voter blockTime = (some (Err.unknownProposal pid), s)) := by
  refine ⟨?_, ?_, ?_⟩
  · intro hgp hexp hc
    simp [AddVote, hgp, hexp, hc]
  · intro hgp hexp
    simp [AddVote, hgp, hexp]
  · intro hgp
    simp [AddVote, hgp]

def sNoCom : StoreState := ⟨[], [⟨1, 9, none, 100⟩], [], 2⟩

theorem addVote_unknown_committee_witness :
    AddVote sNoCom 1 3 10 = (some (Err.unknownCommittee 9), sNoCom) :=
  (addVote_unknown_committee sNoCom 1 3 10 ⟨1, 9, none, 100⟩).1 rfl rfl rfl

/-! SubmitProposal case analysis. -/

def exceptIsOk : Except Err Nat → Bool
  | .ok _ => true
  | .error _ => false

theorem submit_case_noCommittee (k : Keeper) (s : StoreState) (proposer cid : Nat)
    (pp : Option PubProposal) (blockTime : Nat)
    (hc : getCommittee s cid = none) :
    SubmitProposal k s proposer cid pp blockTime = (.error (Err.unknownCommittee cid), s) := by
  simp [SubmitProposal, hc]

theorem submit_case_notMember (k : Keeper) (s : StoreState) (proposer cid : Nat)
    (pp : Option PubProposal) (blockTime : Nat) (com : Committee)
    (hc : getCommittee s cid = some com) (hm : com.HasMember proposer = false) :
    SubmitProposal k s proposer cid pp blockTime =
      (.error (Err.unauthorized (r"proposer not member of committee")), s) := by
  simp [SubmitProposal, hc, hm]

theorem submit_case_noPermission (k : Keeper) (s : StoreState) (proposer cid : Nat)
    (pp : Option PubProposal) (blockTime : Nat) (com : Committee)
    (hc : getCommittee s cid = some com) (hm : com.HasMember proposer = true)
    (hp : com.HasPermissionsFor pp = false) :
    SubmitProposal k s proposer cid pp blockTime =
      (.error (Err.unauthorized (r"committee does not have permissions to enact proposal")), s) := by
  simp [SubmitProposal, hc, hm, hp]

theorem submit_case_invalid (k : Keeper) (s : StoreState) (proposer cid : Nat)
    (pp : Option PubProposal) (blockTime : Nat) (com : Committee) (e : Err)
    (hc : getCommittee s cid = some com) (hm : com.HasMember proposer = true)
    (hp : com.HasPermissionsFor pp = true) (hv : (ValidatePubProposal k s pp).1 = some e) :
    SubmitProposal k s proposer cid pp blockTime = (.error e, s) := by
  have hvp : ValidatePubProposal k s pp = (some e, s) := by
    rw [Prod.ext_iff]
    exact ⟨hv, validate_snd k s pp⟩
  simp [SubmitProposal, hc, hm, hp, hvp]

theorem submit_case_ok (k : Keeper) (s : StoreState) (proposer cid : Nat)
    (pp : Option PubProposal) (blockTime : Nat) (com : Committee)
    (hc : getCommittee s cid = some com) (hm : com.HasMember proposer = true)
    (hp : com.HasPermissionsFor pp = true) (hv : (ValidatePubProposal k s pp).1 = none) :
    SubmitProposal k s proposer cid pp blockTime =
      (.ok s.nextProposalID,
       { s with
           proposals := s.proposals ++ [⟨s.nextProposalID, cid, pp, blockTime + com.ProposalDuration⟩],
           nextProposalID := s.nextProposalID + 1 }) := by
  have hvp : ValidatePubProposal k s pp = (none, s) := by
    rw [Prod.ext_iff]
    exact ⟨hv, validate_snd k s pp⟩
  simp [SubmitProposal, StoreNewProposal, hc, hm, hp, hvp]

/-- C4: SubmitProposal succeeds iff the committee exists, the proposer is
a member, the committee has permission for the content and the content
passes dry-run validation; the preconditions are checked in exactly that
order with the first failure's error returned, and a failing call leaves
the store unchanged (no proposal stored, ID counter unchanged). -/
theorem submitProposal_correct (k : Keeper) (s : StoreState) (proposer cid : Nat)
    (pp : Option PubProposal) (blockTime : Nat) :
    (exceptIsOk (SubmitProposal k s proposer cid pp blockTime).1 = true ↔
      ∃ com, getCommittee s cid = some com ∧ com.HasMember proposer = true ∧
        com.HasPermissionsFor pp = true ∧ (ValidatePubProposal k s pp).1 = none) ∧
    (∀ e, (SubmitProposal k s proposer cid pp blockTime).1 = .error e →
      (SubmitProposal k s proposer cid pp blockTime).2 = s) ∧
    (getCommittee s cid = none →
      (SubmitProposal k s proposer cid pp blockTime).1 = .error (Err.unknownCommittee cid)) ∧
    (∀ com, getCommittee s cid = some com → com.HasMember proposer = false →
      (SubmitProposal k s proposer cid pp blockTime).1 =
        .error (Err.unauthorized (r"proposer not member of committee"))) ∧
    (∀ com, getCommittee s cid = some com → com.HasMember proposer = true →
      com.HasPermissionsFor pp = false →
      (SubmitProposal k s proposer cid pp blockTime).1 =
        .error (Err.unauthorized (r"committee does not have permissions to enact proposal"))) ∧
    (∀ com e, getCommittee s cid = some com → com.HasMember proposer = true →
      com.HasPermissionsFor pp = true → (ValidatePubProposal k s pp).1 = some e →
      (SubmitProposal k s proposer cid pp blockTime).1 = .error e) := by
  refine ⟨?_, ?_, ?_, ?_, ?_, ?_⟩
  · constructor
    · intro hok
      cases hc : getCommittee s cid with
      | none => rw [submit_case_noCommittee k s proposer cid pp blockTime hc] at hok; simp [exceptIsOk] at hok
      | some com =>
        cases hm : com.HasMember proposer with
        | false => rw [submit_case_notMember k s proposer cid pp blockTime com hc hm] at hok; simp [exceptIsOk] at hok
        | true =>
          cases hp : com.HasPermissionsFor pp with
          | false => rw [submit_case_noPermission k s proposer cid pp blockTime com hc hm hp] at hok; simp [exceptIsOk] at hok
          | true =>
            cases hv : (ValidatePubProposal k s pp).1 with
            | some e => rw [submit_case_invalid k s proposer cid pp blockTime com e hc hm hp hv] at hok; simp [exceptIsOk] at hok
            | none => exact ⟨com, rfl, hm, hp, rfl⟩
    · rintro ⟨com, hc, hm, hp, hv⟩
      rw [submit_case_ok k s proposer cid pp blockTime com hc hm hp hv]
      simp [exceptIsOk]
  · intro e he
    cases hc : getCommittee s cid with
    | none => rw [submit_case_noCommittee k s proposer cid pp blockTime hc]
    | some com =>
      cases hm : com.HasMember proposer with
      | false => rw [submit_case_notMember k s proposer cid pp blockTime com hc hm]
      | true =>
        cases hp : com.HasPermissionsFor pp with
        | false => rw [submit_case_noPermission k s proposer cid pp blockTime com hc hm hp]
        | true =>
          cases hv : (ValidatePubProposal k s pp).1 with
          | some e2 => rw [submit_case_invalid k s proposer cid pp blockTime com e2 hc hm hp hv]
          | none =>
            rw [submit_case_ok k s proposer cid pp blockTime com hc hm hp hv] at he
            simp at he
  · intro hc
    rw [submit_case_noCommittee k s proposer cid pp blockTime hc]
  · intro com hc hm
    rw [submit_case_notMember k s proposer cid pp blockTime com hc hm]
  · intro com hc hm hp
    rw [submit_case_noPermission k s proposer cid pp blockTime com hc hm hp]
  · intro com e hc hm hp hv
    rw [submit_case_invalid k s proposer cid pp blockTime com e hc hm hp hv]

def com4 : Committee := ⟨7, [1, 2], [Permission.allowAll], 1, 10⟩

def s4 : StoreState := ⟨[com4], [], [], 1⟩

theorem submitProposal_correct_witness :
    (SubmitProposal kErr s4 5 7 (some ppErr) 0).1 =
      .error (Err.unauthorized (r"proposer not member of committee")) ∧
    (SubmitProposal kErr s4 5 7 (some ppErr) 0).2 = s4 := by
  have h := submitProposal_correct kErr s4 5 7 (some ppErr) 0
  have h1 := h.2.2.2.1 com4 rfl rfl
  exact ⟨h1, h.2.1 _ h1⟩

/-- C5: for an existing proposal whose committee exists, GetProposalResult
returns passed = (TallyVotes ≥ VoteThreshold × member count) computed with
exact rational arithmetic and an inclusive comparison; equivalently the
proposal passes iff its tally reaches ceil(T×N), so a tally of exactly
ceil(T×N) passes and a tally one smaller fails. -/
theorem getProposalResult_quorum (s : StoreState) (pid : Nat) (pr : Proposal) (com : Committee)
    (hgp : getProposal s pid = some pr)
    (hc : getCommittee s pr.CommitteeID = some com) :
    GetProposalResult s pid =
      Except.ok (decide ((TallyVotes s pid : Rat) ≥ com.VoteThreshold * (com.Members.length : Rat))) ∧
    (GetProposalResult s pid = Except.ok true ↔
      (TallyVotes s pid : Int) ≥ ⌈com.VoteThreshold * (com.Members.length : Rat)⌉) ∧
    ((TallyVotes s pid : Int) = ⌈com.VoteThreshold * (com.Members.length : Rat)⌉ →
      GetProposalResult s pid = Except.ok true) ∧
    ((TallyVotes s pid : Int) = ⌈com.VoteThreshold * (com.Members.length : Rat)⌉ - 1 →
      GetProposalResult s pid = Except.ok false) := by
  have hres : GetProposalResult s pid =
      Except.ok (decide ((TallyVotes s pid : Rat) ≥ com.VoteThreshold * (com.Members.length : Rat))) := by
    simp [GetProposalResult, hgp, hc]
  have hkey : ((TallyVotes s pid : Rat) ≥ com.VoteThreshold * (com.Members.length : Rat)) ↔
      ((TallyVotes s pid : Int) ≥ ⌈com.VoteThreshold * (com.Members.length : Rat)⌉) := by
    rw [ge_iff_le, ge_iff_le, Int.ceil_le]
    constructor
    · intro h
      exact_mod_cast h
    · intro h
      exact_mod_cast h
  have hiff : GetProposalResult s pid = Except.ok true ↔
      (TallyVotes s pid : Int) ≥ ⌈com.VoteThreshold * (com.Members.length : Rat)⌉ := by
    rw [hres]
    constructor
    · intro h
      simp only [Except.ok.injEq] at h
      rw [decide_eq_true_eq] at h
      exact hkey.mp h
    · intro h
      have hge := hkey.mpr h
      simp [hge]
  refine ⟨hres, hiff, ?_, ?_⟩
  · intro heq
    refine hiff.mpr ?_
    rw [heq]
  · intro heq
    have hnot : ¬ ((TallyVotes s pid : Rat) ≥ com.VoteThreshold * (com.Members.length : Rat)) := by
      rw [ge_iff_le, not_le]
      have hcast : ((TallyVotes s pid : Rat)) =
          ((⌈com.VoteThreshold * (com.Members.length : Rat)⌉ : Int) : Rat) - 1 := by
        rw [show ((TallyVotes s pid : Rat)) = (((TallyVotes s pid : Int)) : Rat) by push_cast; rfl]
        rw [heq]
        push_cast
        ring
      rw [hcast]
      have hlt := Int.ceil_lt_add_one (com.VoteThreshold * (com.Members.length : Rat))
      linarith
    rw [hres, decide_eq_false hnot]

def com5 : Committee := ⟨3, [1, 2, 3], [Permission.allowAll], 1, 10⟩

def pr5 : Proposal := ⟨1, 3, none, 100⟩

/-- Two of three members voted: with threshold 1 the quorum is
ceil(1 times 3) = 3, so two votes is one short. -/
def s5 : StoreState := ⟨[com5], [pr5], [⟨1, 1⟩, ⟨1, 2⟩], 2⟩

/-- All three members voted: exactly the quorum, which passes. -/
def s5b : StoreState := ⟨[com5], [pr5], [⟨1, 1⟩, ⟨1, 2⟩, ⟨1, 3⟩], 2⟩

theorem getProposalResult_quorum_witness :
    GetProposalResult s5 1 = Except.ok false ∧ GetProposalResult s5b 1 = Except.ok true := by
  constructor
  · refine (getProposalResult_quorum s5 1 pr5 com5 rfl rfl).2.2.2 ?_
    simp [TallyVotes, votesFor, s5, com5]
  · refine (getProposalResult_quorum s5b 1 pr5 com5 rfl rfl).2.2.1 ?_
    simp [TallyVotes, votesFor, s5b, com5]

/-! Vote ledger lemmas. -/

/-- The keyed-store invariant of the vote keyspace: at most one record per
(ProposalID, Voter) key. -/
def wellKeyed (l : List Vote) : Prop :=
  ∀ pid voter, (l.filter (keyMatch pid voter)).length ≤ 1

theorem keyMatch_eq {pid voter : Nat} {w : Vote} (h : keyMatch pid voter w = true) :
    w = ⟨pid, voter⟩ := by
  cases w with
  | mk a b =>
    simp [keyMatch] at h
    simp [h.1, h.2]

/-- Overwriting the record under its own key with an identical record is
the identity on the vote list. -/
theorem overwrite_id (l : List Vote) (v : Vote) :
    l.map (fun w => if keyMatch v.ProposalID v.Voter w then v else w) = l := by
  induction l with
  | nil => rfl
  | cons a tl ih =>
    cases hm : keyMatch v.ProposalID v.Voter a with
    | true =>
      have ha : a = ⟨v.ProposalID, v.Voter⟩ := keyMatch_eq hm
      simp [hm, ih, ha]
    | false => simp [hm, ih]

theorem setVote_votes (s : StoreState) (v : Vote) :
    (setVote s v).votes =
      if s.votes.any (keyMatch v.ProposalID v.Voter) then s.votes else s.votes ++ [v] := by
  cases hany : s.votes.any (keyMatch v.ProposalID v.Voter) with
  | true => simp [setVote, hany, overwrite_id]
  | false => simp [setVote, hany]

theorem setVote_key_count (s : StoreState) (v : Vote) (hw : wellKeyed s.votes) :
    ((setVote s v).votes.filter (keyMatch v.ProposalID v.Voter)).length = 1 := by
  rw [setVote_votes]
  cases hany : s.votes.any (keyMatch v.ProposalID v.Voter) with
  | true =>
    simp only [if_pos rfl, if_true]
    obtain ⟨x, hx, hpx⟩ := List.any_eq_true.mp hany
    have hmem : x ∈ s.votes.filter (keyMatch v.ProposalID v.Voter) :=
      List.mem_filter.mpr ⟨hx, hpx⟩
    have hpos : 0 < (s.votes.filter (keyMatch v.ProposalID v.Voter)).length :=
      List.length_pos.mpr (List.ne_nil_of_mem hmem)
    have hle := hw v.ProposalID v.Voter
    omega
  | false =>
    simp only [Bool.false_eq_true, if_false]
    rw [List.filter_append]
    have hnil : s.votes.filter (keyMatch v.ProposalID v.Voter) = [] := by
      rw [List.filter_eq_nil_iff]
      intro a ha
      have := List.any_eq_false.mp hany
      exact this a ha
    rw [hnil]
    simp [keyMatch]

theorem setVote_wellKeyed (s : StoreState) (v : Vote) (hw : wellKeyed s.votes) :
    wellKeyed (setVote s v).votes := by
  intro pid voter
  rw [setVote_votes]
  cases hany : s.votes.any (keyMatch v.ProposalID v.Voter) with
  | true =>
    simp only [if_true]
    exact hw pid voter
  | false =>
    simp only [Bool.false_eq_true, if_false]
    rw [List.filter_append]
    cases hm : keyMatch pid voter v with
    | true =>
      have hv : v = ⟨pid, voter⟩ := keyMatch_eq hm
      have hnil : s.votes.filter (keyMatch pid voter) = [] := by
        rw [List.filter_eq_nil_iff]
        intro a ha
        have hall := List.any_eq_false.mp hany
        have := hall a ha
        rw [hv] at this
        exact this
      rw [hnil]
      simp [hm]
    | false =>
      simp [hm]
      exact hw pid voter

theorem addVote_ok_inversion (s : StoreState) (pid voter t : Nat) (s' : StoreState)
    (h : AddVote s pid voter t = (none, s')) : s' = setVote s ⟨pid, voter⟩ := by
  cases hgp : getProposal s pid with
  | none => simp [AddVote, hgp] at h
  | some pr =>
    cases hexp : pr.HasExpiredBy t with
    | true => simp [AddVote, hgp, hexp] at h
    | false =>
      cases hc : getCommittee s pr.CommitteeID with
      | none => simp [AddVote, hgp, hexp, hc] at h
      | some com =>
        cases hm : com.HasMember voter with
        | false => simp [AddVote, hgp, hexp, hc, hm] at h
        | true =>
          simp [AddVote, hgp, hexp, hc, hm] at h
          exact h.symm

theorem filter_partition (p q : Vote → Bool) (l : List Vote) :
    (l.filter p).length =
      (l.filter (fun a => p a && q a)).length + (l.filter (fun a => p a && !(q a))).length := by
  induction l with
  | nil => rfl
  | cons a tl ih =>
    cases hp : p a <;> cases hq : q a <;> simp [hp, hq, ih] <;> omega

/-- C6: re-vote idempotence: two successful AddVote calls for the same
(proposal, voter) pair leave exactly one vote record under that key, and
TallyVotes counts that voter exactly once (the tally is one more than
the number of records of that proposal from other voters). -/
theorem addVote_idempotent (s s1 s2 : StoreState) (pid voter t t2 : Nat)
    (hw : wellKeyed s.votes)
    (h1 : AddVote s pid voter t = (none, s1))
    (h2 : AddVote s1 pid voter t2 = (none, s2)) :
    (s2.votes.filter (keyMatch pid voter)).length = 1 ∧
    TallyVotes s2 pid =
      (s2.votes.filter (fun w => w.ProposalID == pid && !(w.Voter == voter))).length + 1 := by
  have hs1 : s1 = setVote s ⟨pid, voter⟩ := addVote_ok_inversion s pid voter t s1 h1
  have hs2 : s2 = setVote s1 ⟨pid, voter⟩ := addVote_ok_inversion s1 pid voter t2 s2 h2
  have hw1 : wellKeyed s1.votes := by
    rw [hs1]
    exact setVote_wellKeyed s ⟨pid, voter⟩ hw
  have hcount : (s2.votes.filter (keyMatch pid voter)).length = 1 := by
    rw [hs2]
    exact setVote_key_count s1 ⟨pid, voter⟩ hw1
  refine ⟨hcount, ?_⟩
  have hpart := filter_partition (fun w => w.ProposalID == pid) (fun w => w.Voter == voter) s2.votes
  have hkm : (s2.votes.filter (fun a => a.ProposalID == pid && a.Voter == voter)).length = 1 := hcount
  rw [TallyVotes, votesFor, hpart, hkm]
  omega

def com6 : Committee := ⟨2, [4], [Permission.allowAll], 1, 10⟩

def pr6 : Proposal := ⟨1, 2, none, 100⟩

def s6 : StoreState := ⟨[com6], [pr6], [], 1⟩

def s6a : StoreState := ⟨[com6], [pr6], [⟨1, 4⟩], 1⟩

theorem addVote_idempotent_witness :
    (s6a.votes.filter (keyMatch 1 4)).length = 1 ∧
    TallyVotes s6a 1 =
      (s6a.votes.filter (fun w => w.ProposalID == 1 && !(w.Voter == 4))).length + 1 :=
  addVote_idempotent s6 s6a s6a 1 4 0 5 (by intro pid voter; simp [s6]) rfl rfl

/-! DeleteProposalAndVotes lemmas. -/

theorem delVotes_foldl_trace (vs : List Vote) (t : StoreState) (tr : List StoreOp) :
    (vs.foldl delVoteStep (t, tr)).2 =
      tr ++ vs.map (fun v => StoreOp.delVote v.ProposalID v.Voter) := by
  induction vs generalizing t tr with
  | nil => simp
  | cons a vs ih => simp [delVoteStep, ih]

theorem delVotes_foldl_votes (vs : List Vote) (t : StoreState) (tr : List StoreOp) :
    (vs.foldl delVoteStep (t, tr)).1.votes =
      t.votes.filter (fun w => !(vs.any (fun v => keyMatch v.ProposalID v.Voter w))) := by
  induction vs generalizing t tr with
  | nil => simp
  | cons a vs ih =>
    rw [List.foldl_cons, ih]
    simp only [delVoteStep, deleteVote]
    rw [List.filter_filter]
    apply List.filter_congr
    intro w _
    simp [List.any_cons, Bool.and_comm]

theorem delVotes_foldl_proposals (vs : List Vote) (t : StoreState) (tr : List StoreOp) :
    (vs.foldl delVoteStep (t, tr)).1.proposals = t.proposals := by
  induction vs generalizing t tr with
  | nil => rfl
  | cons a vs ih => rw [List.foldl_cons, ih]; rfl

theorem delVotes_foldl_committees (vs : List Vote) (t : StoreState) (tr : List StoreOp) :
    (vs.foldl delVoteStep (t, tr)).1.committees = t.committees := by
  induction vs generalizing t tr with
  | nil => rfl
  | cons a vs ih => rw [List.foldl_cons, ih]; rfl

theorem delVotes_foldl_nextID (vs : List Vote) (t : StoreState) (tr : List StoreOp) :
    (vs.foldl delVoteStep (t, tr)).1.nextProposalID = t.nextProposalID := by
  induction vs generalizing t tr with
  | nil => rfl
  | cons a vs ih => rw [List.foldl_cons, ih]; rfl

/-- For a vote already in the store, scanning the collected votes of a
proposal for its key succeeds exactly when the vote belongs to that
proposal. -/
theorem votesFor_any_key (s : StoreState) (pid : Nat) (w : Vote) (hw : w ∈ s.votes) :
    (votesFor s pid).any (fun v => keyMatch v.ProposalID v.Voter w) = (w.ProposalID == pid) := by
  cases hp : w.ProposalID == pid with
  | true =>
    apply List.any_eq_true.mpr
    refine ⟨w, List.mem_filter.mpr ⟨hw, hp⟩, ?_⟩
    simp [keyMatch]
  | false =>
    apply List.any_eq_false.mpr
    intro v hv
    have hv2 := (List.mem_filter.mp hv).2
    simp only [beq_iff_eq] at hv2
    have hp2 : w.ProposalID ≠ pid := by simpa using hp
    simp only [keyMatch, Bool.and_eq_true, beq_iff_eq, not_and]
    intro he
    exact absurd (he.trans hv2) hp2

theorem dpv_trace (s : StoreState) (pid : Nat) :
    (DeleteProposalAndVotes s pid).2 =
      StoreOp.delProposal pid :: (votesFor s pid).map (fun v => StoreOp.delVote v.ProposalID v.Voter) := by
  rw [DeleteProposalAndVotes, delVotes_foldl_trace]
  rfl

theorem dpv_proposals (s : StoreState) (pid : Nat) :
    (DeleteProposalAndVotes s pid).1.proposals = s.proposals.filter (fun p => !(p.ID == pid)) := by
  rw [DeleteProposalAndVotes, delVotes_foldl_proposals]
  rfl

theorem dpv_votes (s : StoreState) (pid : Nat) :
    (DeleteProposalAndVotes s pid).1.votes = s.votes.filter (fun w => !(w.ProposalID == pid)) := by
  rw [DeleteProposalAndVotes, delVotes_foldl_votes]
  have hdp : (deleteProposal s pid).votes = s.votes := rfl
  rw [hdp]
  apply List.filter_congr
  intro w hw
  rw [votesFor_any_key s pid w hw]

theorem dpv_committees (s : StoreState) (pid : Nat) :
    (DeleteProposalAndVotes s pid).1.committees = s.committees := by
  rw [DeleteProposalAndVotes, delVotes_foldl_committees]
  rfl

theorem dpv_nextID (s : StoreState) (pid : Nat) :
    (DeleteProposalAndVotes s pid).1.nextProposalID = s.nextProposalID := by
  rw [DeleteProposalAndVotes, delVotes_foldl_nextID]
  rfl

/-- C8 (amended): DeleteProposalAndVotes collects the proposal's votes,
then issues the proposal deletion first and the deletions of the
collected votes after it, and afterwards neither the proposal record nor
any vote record of that proposal remains in the store. -/
theorem deleteProposalAndVotes_spec (s : StoreState) (pid : Nat) :
    (DeleteProposalAndVotes s pid).2 =
      StoreOp.delProposal pid :: (votesFor s pid).map (fun v => StoreOp.delVote v.ProposalID v.Voter) ∧
    (DeleteProposalAndVotes s pid).1.proposals = s.proposals.filter (fun p => !(p.ID == pid)) ∧
    (DeleteProposalAndVotes s pid).1.votes = s.votes.filter (fun w => !(w.ProposalID == pid)) :=
  ⟨dpv_trace s pid, dpv_proposals s pid, dpv_votes s pid⟩

def s8 : StoreState := ⟨[], [⟨1, 0, none, 10⟩], [⟨1, 7⟩], 2⟩

/-- C8 counterexample: on a store with one proposal (id 1) and one vote
for it, the code issues the proposal deletion before the vote deletion,
not the votes-then-proposal order the claim states. -/
theorem deleteProposalAndVotes_order_counterexample :
    (DeleteProposalAndVotes s8 1).2 = [StoreOp.delProposal 1, StoreOp.delVote 1 7] ∧
    (DeleteProposalAndVotes s8 1).2 ≠ [StoreOp.delVote 1 7, StoreOp.delProposal 1] := by
  constructor
  · rfl
  · decide

/-! Expiry sweep lemmas. -/

theorem sweep_foldl_visited (blockTime : Nat) (l : List Proposal) (acc : SweepAcc) :
    (l.foldl (sweepStep blockTime) acc).visited = acc.visited + l.length := by
  induction l generalizing acc with
  | nil => simp
  | cons a l ih =>
    rw [List.foldl_cons, ih]
    cases ha : a.HasExpiredBy blockTime <;> simp [sweepStep, ha] <;> omega

theorem sweep_foldl_committees (blockTime : Nat) (l : List Proposal) (acc : SweepAcc) :
    (l.foldl (sweepStep blockTime) acc).state.committees = acc.state.committees := by
  induction l generalizing acc with
  | nil => rfl
  | cons a l ih =>
    rw [List.foldl_cons, ih]
    cases ha : a.HasExpiredBy blockTime <;> simp [sweepStep, ha, dpv_committees]

theorem sweep_foldl_nextID (blockTime : Nat) (l : List Proposal) (acc : SweepAcc) :
    (l.foldl (sweepStep blockTime) acc).state.nextProposalID = acc.state.nextProposalID := by
  induction l generalizing acc with
  | nil => rfl
  | cons a l ih =>
    rw [List.foldl_cons, ih]
    cases ha : a.HasExpiredBy blockTime <;> simp [sweepStep, ha, dpv_nextID]

theorem beqComm (a b : Nat) : (a == b) = (b == a) := by
  by_cases h : a = b
  · simp [h]
  · have h1 : (a == b) = false := by rw [beq_eq_false_iff_ne]; exact h
    have h2 : (b == a) = false := by rw [beq_eq_false_iff_ne]; exact Ne.symm h
    rw [h1, h2]

theorem sweep_foldl_proposals (blockTime : Nat) (l : List Proposal) (acc : SweepAcc) :
    (l.foldl (sweepStep blockTime) acc).state.proposals =
      acc.state.proposals.filter
        (fun q => !(l.any (fun p => p.ID == q.ID && p.HasExpiredBy blockTime))) := by
  induction l generalizing acc with
  | nil => simp
  | cons a l ih =>
    rw [List.foldl_cons, ih]
    cases ha : a.HasExpiredBy blockTime with
    | true =>
      simp only [sweepStep, ha, if_true]
      rw [dpv_proposals, List.filter_filter]
      apply List.filter_congr
      intro q _
      rw [List.any_cons, ha, Bool.and_true, beqComm a.ID q.ID]
      cases hq : q.ID == a.ID <;> cases hl : l.any (fun p => p.ID == q.ID && p.HasExpiredBy blockTime) <;>
        simp [hq, hl]
    | false =>
      simp only [sweepStep, ha, Bool.false_eq_true, if_false]
      apply List.filter_congr
      intro q _
      rw [List.any_cons, ha, Bool.and_false]
      simp

theorem sweep_foldl_votes (blockTime : Nat) (l : List Proposal) (acc : SweepAcc) :
    (l.foldl (sweepStep blockTime) acc).state.votes =
      acc.state.votes.filter
        (fun w => !(l.any (fun p => p.ID == w.ProposalID && p.HasExpiredBy blockTime))) := by
  induction l generalizing acc with
  | nil => simp
  | cons a l ih =>
    rw [List.foldl_cons, ih]
    cases ha : a.HasExpiredBy blockTime with
    | true =>
      simp only [sweepStep, ha, if_true]
      rw [dpv_votes, List.filter_filter]
      apply List.filter_congr
      intro w _
      rw [List.any_cons, ha, Bool.and_true, beqComm a.ID w.ProposalID]
      cases hq : w.ProposalID == a.ID <;>
        cases hl : l.any (fun p => p.ID == w.ProposalID && p.HasExpiredBy blockTime) <;>
        simp [hq, hl]
    | false =>
      simp only [sweepStep, ha, Bool.false_eq_true, if_false]
      apply List.filter_congr
      intro w _
      rw [List.any_cons, ha, Bool.and_false]
      simp

/-- C7: for a store whose proposals carry distinct IDs (the keyed-store
invariant) the expiry sweep removes exactly the proposals whose deadline
is at or before now together with all of their votes, leaves every later
proposal and its votes (and the committees and the ID counter)
untouched, and its iteration callback visits every stored proposal
exactly once regardless of the deletions performed mid-iteration. -/
theorem closeExpiredProposals_spec (s : StoreState) (blockTime : Nat)
    (hids : s.proposals.Pairwise (fun a b => a.ID ≠ b.ID)) :
    (CloseExpiredProposals s blockTime).state.proposals =
      s.proposals.filter (fun p => !(p.HasExpiredBy blockTime)) ∧
    (CloseExpiredProposals s blockTime).state.votes =
      s.votes.filter
        (fun w => !(s.proposals.any (fun p => p.ID == w.ProposalID && p.HasExpiredBy blockTime))) ∧
    (CloseExpiredProposals s blockTime).visited = s.proposals.length ∧
    (CloseExpiredProposals s blockTime).state.committees = s.committees ∧
    (CloseExpiredProposals s blockTime).state.nextProposalID = s.nextProposalID := by
  refine ⟨?_, ?_, ?_, ?_, ?_⟩
  · rw [CloseExpiredProposals, sweep_foldl_proposals]
    apply List.filter_congr
    intro q hq
    congr 1
    cases hexp : q.HasExpiredBy blockTime with
    | true =>
      apply List.any_eq_true.mpr
      exact ⟨q, hq, by simp [hexp]⟩
    | false =>
      apply List.any_eq_false.mpr
      intro p hp
      simp only [Bool.and_eq_true, beq_iff_eq, not_and]
      intro hid
      have hpq : p = q := by
        by_contra hne
        have hsym : Symmetric (fun a b : Proposal => a.ID ≠ b.ID) :=
          fun x y hxy e => hxy e.symm
        exact (hids.forall hsym hp hq hne) hid
      rw [hpq, hexp]
      simp
  · rw [CloseExpiredProposals, sweep_foldl_votes]
  · rw [CloseExpiredProposals, sweep_foldl_visited]
    simp
  · rw [CloseExpiredProposals, sweep_foldl_committees]
  · rw [CloseExpiredProposals, sweep_foldl_nextID]

def s7 : StoreState := ⟨[], [⟨1, 0, none, 50⟩, ⟨2, 0, none, 100⟩, ⟨3, 0, none, 150⟩],
  [⟨1, 8⟩, ⟨2, 8⟩, ⟨3, 8⟩, ⟨9, 9⟩], 4⟩

theorem closeExpiredProposals_spec_witness :
    (CloseExpiredProposals s7 100).state.proposals = [⟨3, 0, none, 150⟩] ∧
    (CloseExpiredProposals s7 100).state.votes = [⟨3, 8⟩, ⟨9, 9⟩] ∧
    (CloseExpiredProposals s7 100).visited = 3 := by
  have h := closeExpiredProposals_spec s7 100 (by decide)
  exact ⟨h.1.trans (by decide), h.2.1.trans (by decide), h.2.2.1.trans (by decide)⟩

end Kava

namespace Cdp

/-- Modelled from the spec: the cdp module's name constant, the name of
its required pre-created module account. -/
def ModuleName : String := r"cdp"

/-- Modelled from the spec: the liquidator module account name. -/
def LiquidatorMacc : String := r"liquidator"

/-- Modelled from the spec: the savings-rate module account name. -/
def SavingsRateMacc : String := r"savings"

/-- A coin (sdk.Coin): denom and amount. -/
structure Coin where
  denom : String
  amount : Int
deriving DecidableEq

/-- Coin addition; in genesis it is applied to a cdp's principal and
accumulated fees, which share a denom, so it adds amounts under the
first denom. -/
def Coin.add (a b : Coin) : Coin :=
  ⟨a.denom, a.amount + b.amount⟩

structure CDP where
  ID : Nat
  Owner : Nat
  Collateral : Coin
  Principal : Coin
  AccumulatedFees : Coin
deriving DecidableEq

structure Deposit where
  CdpID : Nat
  Depositor : Nat
  Amount : Coin
deriving DecidableEq

structure CollateralParam where
  Denom : String
  MarketID : String
deriving DecidableEq

structure DebtParam where
  Denom : String
deriving DecidableEq

structure Params where
  CollateralParams : List CollateralParam
  DebtParams : List DebtParam
deriving DecidableEq

/-- The cdp genesis state.  Modelled from the spec: GenesisState.Validate
performs internal consistency checks whose code is outside this
fragment; its verdict is carried as abstract data on the genesis
value. -/
structure GenesisState where
  Params : Params
  CDPs : List CDP
  Deposits : List Deposit
  StartingCdpID : Nat
  DebtDenom : String
  GovDenom : String
  validateErr : Option String
deriving DecidableEq

/-- The cdp keeper's persisted state as touched by InitGenesis. -/
structure CdpState where
  params : Option Params
  totalPrincipal : List ((String × String) × Int)
  cdps : List CDP
  ownerIndex : List (Nat × Nat)
  ratioIndex : List ((String × Nat) × Rat)
  nextCdpID : Nat
  debtDenom : String
  govDenom : String
  deposits : List Deposit
deriving DecidableEq

/-- External collaborators of InitGenesis: the supply keeper's table of
pre-created module accounts, the pricefeed params' market IDs, and the
keeper's collateral-to-debt ratio computation (code outside this
fragment, treated as an opaque function). -/
structure CdpEnv where
  moduleAccounts : List String
  pricefeedMarkets : List String
  calcRatio : Coin → Coin → Rat

/-- Outcome of InitGenesis: the Go function returns nothing and signals
every failure by panicking, so the only outcomes are a fully
initialised keeper state or a panic. -/
inductive InitResult where
  | panicked (msg : String)
  | ok (st : CdpState)

def InitResult.isPanic : InitResult → Bool
  | .panicked _ => true
  | .ok _ => false

def setTotalPrincipal (st : CdpState) (cd dd : String) (v : Int) : CdpState :=
  { st with totalPrincipal :=
      ((cd, dd), v) :: st.totalPrincipal.filter (fun e => !(e.1 == (cd, dd))) }

def getTotalPrincipal (st : CdpState) (cd dd : String) : Int :=
  match st.totalPrincipal.find? (fun e => e.1 == (cd, dd)) with
  | some e => e.2
  | none => 0

def IncrementTotalPrincipal (st : CdpState) (cd : String) (principal : Coin) : CdpState :=
  setTotalPrincipal st cd principal.denom (getTotalPrincipal st cd principal.denom + principal.amount)

/-- The body of the cdp-loading loop: SetCDP, IndexCdpByOwner, the
collateral ratio index entry, and the total principal increment. -/
def applyCdp (env : CdpEnv) (st : CdpState) (cdp : CDP) : CdpState :=
  let st1 := { st with cdps := st.cdps ++ [cdp] }
  let st2 := { st1 with ownerIndex := st1.ownerIndex ++ [(cdp.Owner, cdp.ID)] }
  let ratio := env.calcRatio cdp.Collateral (cdp.Principal.add cdp.AccumulatedFees)
  let st3 := { st2 with ratioIndex := st2.ratioIndex ++ [((cdp.Collateral.denom, cdp.ID), ratio)] }
  IncrementTotalPrincipal st3 cdp.Collateral.denom cdp.Principal

/-- The cdp-loading loop, which panics when a stored cdp already carries
the starting cdp id. -/
def addCdps (env : CdpEnv) (startingID : Nat) : CdpState → List CDP → InitResult
  | st, [] => .ok st
  | st, cdp :: rest =>
    if cdp.ID == startingID then
      .panicked (r"starting cdp id is assigned to an existing cdp")
    else
      addCdps env startingID (applyCdp env st cdp) rest

/-- The per-second fee seeding loop: zero total principal per collateral
and debt param pair. -/
def seedTotalPrincipal (ps : Params) (st : CdpState) : CdpState :=
  ps.CollateralParams.foldl
    (fun acc cp => ps.DebtParams.foldl (fun acc2 dp => setTotalPrincipal acc2 cp.Denom dp.Denom 0) acc)
    st

/-- InitGenesis sets initial genesis state for the cdp module: it panics
on an invalid genesis state, on any missing module account, on a
collateral without a pricefeed market, and on a starting cdp id already
in use; otherwise it seeds params, total principals, cdps with their
indexes, the counters and denoms, and the deposits. -/
def InitGenesis (env : CdpEnv) (st0 : CdpState) (gs : GenesisState) : InitResult :=
  match gs.validateErr with
  | some e => .panicked ((r"failed to validate cdp genesis state: ") ++ e)
  | none =>
    if !(env.moduleAccounts.contains ModuleName) then
      .panicked (ModuleName ++ (r" module account has not been set"))
    else if !(env.moduleAccounts.contains LiquidatorMacc) then
      .panicked (LiquidatorMacc ++ (r" module account has not been set"))
    else if !(env.moduleAccounts.contains SavingsRateMacc) then
      .panicked (SavingsRateMacc ++ (r" module account has not been set"))
    else
      match gs.Params.CollateralParams.find? (fun col => !(env.pricefeedMarkets.contains col.MarketID)) with
      | some col => .panicked (col.Denom ++ (r" collateral not found in pricefeed"))
      | none =>
        let st1 := { st0 with params := some gs.Params }
        let st2 := seedTotalPrincipal gs.Params st1
        match addCdps env gs.StartingCdpID st2 gs.CDPs with
        | .panicked m => .panicked m
        | .ok st3 =>
          let st4 := { st3 with
            nextCdpID := gs.StartingCdpID, debtDenom := gs.DebtDenom, govDenom := gs.GovDenom }
          .ok { st4 with deposits := st4.deposits ++ gs.Deposits }

/-- C9: InitGenesis surfaces a missing required module account (the cdp,
liquidator, or savings-rate module account) as an unrecoverable panic,
never as an ordinary error result: its result type has no error channel,
and whenever any of the three module accounts has not been pre-created
the outcome is a panic. -/
theorem initGenesis_panics_on_missing_module_account
    (env : CdpEnv) (st0 : CdpState) (gs : GenesisState)
    (hmiss : env.moduleAccounts.contains ModuleName = false ∨
             env.moduleAccounts.contains LiquidatorMacc = false ∨
             env.moduleAccounts.contains SavingsRateMacc = false) :
    (InitGenesis env st0 gs).isPanic = true := by
  cases hval : gs.validateErr with
  | some e => simp [InitGenesis, hval, InitResult.isPanic]
  | none =>
    cases h1 : env.moduleAccounts.contains ModuleName with
    | false =>
      simp at h1
      simp [InitGenesis, hval, h1, InitResult.isPanic]
    | true =>
      cases h2 : env.moduleAccounts.contains LiquidatorMacc with
      | false =>
        simp at h1 h2
        simp [InitGenesis, hval, h1, h2, InitResult.isPanic]
      | true =>
        cases h3 : env.moduleAccounts.contains SavingsRateMacc with
        | false =>
          simp at h1 h2 h3
          simp [InitGenesis, hval, h1, h2, h3, InitResult.isPanic]
        | true =>
          rcases hmiss with h | h | h
          · rw [h1] at h
            simp at h
          · rw [h2] at h
            simp at h
          · rw [h3] at h
            simp at h

def env9 : CdpEnv := ⟨[r"liquidator", r"savings"], [], fun _ _ => 0⟩

def st9 : CdpState := ⟨none, [], [], [], [], 0, r"", r"", []⟩

def gs9 : GenesisState := ⟨⟨[], []⟩, [], [], 1, r"debt", r"gov", none⟩

theorem initGenesis_panics_on_missing_module_account_witness :
    (InitGenesis env9 st9 gs9).isPanic = true :=
  initGenesis_panics_on_missing_module_account env9 st9 gs9 (Or.inl (by decide))

end Cdp
